import Mathlib

/-!
Shallow embedding of the Htzbuild remote-build tool (a Hetzner Cloud + EAS
build orchestrator written in JavaScript) together with proofs about the
properties its specification states.

Strings are modelled as `List Char`; JavaScript's `String.prototype.replace`
with a global literal pattern is modelled by `replaceAll` below (left-to-right,
non-overlapping, replacements are not rescanned), and `replace` with a plain
string pattern (first occurrence only) by `replaceFirst`.
-/

namespace Htzbuild

/-- Worker for `replaceAll`; `fuel` bounds the number of scanning steps, and
the length of the scanned list is always enough (each step consumes at least
one character). -/
def replaceAllFuel (pat rep : List Char) : Nat → List Char → List Char
  | _, [] => []
  | 0, s => s
  | fuel + 1, c :: rest =>
    if 0 < pat.length ∧ (c :: rest).take pat.length = pat then
      rep ++ replaceAllFuel pat rep fuel ((c :: rest).drop pat.length)
    else
      c :: replaceAllFuel pat rep fuel rest

/-- JS `s.replace(/pat/g, rep)` for a literal pattern `pat`: scan left to
right, replace each non-overlapping occurrence, never rescanning the
replacement text. -/
def replaceAll (pat rep s : List Char) : List Char :=
  replaceAllFuel pat rep s.length s

/-- JS `s.replace("pat", rep)` with a plain string pattern: only the first
occurrence is replaced. -/
def replaceFirst (pat rep : List Char) : List Char → List Char
  | [] => []
  | c :: rest =>
    if 0 < pat.length ∧ (c :: rest).take pat.length = pat then
      rep ++ (c :: rest).drop pat.length
    else
      c :: replaceFirst pat rep rest

/-- Does `pat` occur as a contiguous substring of the list? -/
def occursB (pat : List Char) : List Char → Bool
  | [] => decide (pat = [])
  | c :: rest => decide ((c :: rest).take pat.length = pat) || occursB pat rest

/-- No character of the list is a dollar sign. -/
def dollarFree (s : List Char) : Bool := s.all (fun c => c ≠ '$')

/-- The five placeholders understood by `RemoteBuilder.interpolateTemplate`. -/
inductive Ph
  | profile
  | projectDir
  | envFile
  | logPath
  | statusFile
deriving DecidableEq, Fintype, Repr

/-- The literal placeholder token for each placeholder. -/
def tok : Ph → List Char
  | .profile => "${PROFILE}".toList
  | .projectDir => "${REMOTE_PROJECT_DIR}".toList
  | .envFile => "${REMOTE_ENV_FILE}".toList
  | .logPath => "${REMOTE_LOG_PATH}".toList
  | .statusFile => "${REMOTE_STATUS_FILE}".toList

/--
The fields of the `RemoteBuilder` class (source `remoteBuilder.js`) that the
verified properties depend on: the build profile chosen at construction and
the `RunConfiguration` values copied from the (possibly merged) config object.
-/
structure RemoteBuilder where
  profile : String
  remoteProjectDir : String
  remoteEnvFile : String
  remoteLogPath : String
  remoteStatusFile : String
  artifactCandidates : List String
  artifactForProfile : List (String × String)
deriving DecidableEq, Repr

/-- The value substituted for each placeholder by `interpolateTemplate`. -/
def phVal (b : RemoteBuilder) : Ph → List Char
  | .profile => b.profile.toList
  | .projectDir => b.remoteProjectDir.toList
  | .envFile => b.remoteEnvFile.toList
  | .logPath => b.remoteLogPath.toList
  | .statusFile => b.remoteStatusFile.toList

/-- `RemoteBuilder.interpolateTemplate`, at the character-list level: five
chained global replaces, `${PROFILE}` first, `${REMOTE_STATUS_FILE}` last. -/
def interpolateL (b : RemoteBuilder) (t : List Char) : List Char :=
  replaceAll (tok .statusFile) (phVal b .statusFile)
    (replaceAll (tok .logPath) (phVal b .logPath)
      (replaceAll (tok .envFile) (phVal b .envFile)
        (replaceAll (tok .projectDir) (phVal b .projectDir)
          (replaceAll (tok .profile) (phVal b .profile) t))))

/-- `RemoteBuilder.interpolateTemplate` on strings. -/
def interpolateTemplate (b : RemoteBuilder) (t : String) : String :=
  (interpolateL b t.toList).asString

/-- `DEFAULT_CONFIG` from `configLoader.js`, paired with a profile the way the
`RemoteBuilder` constructor copies it onto the instance. -/
def defaultBuilder (profile : String) : RemoteBuilder where
  profile := profile
  remoteProjectDir := "/root/project"
  remoteEnvFile := "/root/build-env.sh"
  remoteLogPath := "/root/build.log"
  remoteStatusFile := "/root/build-status"
  artifactCandidates := ["/root/build-output.apk", "/root/build-output.aab"]
  artifactForProfile :=
    [("production", "/root/build-output.aab"), ("default", "/root/build-output.apk")]

/--
A template "containing only the known placeholders": an alternation of literal
segments and placeholder tokens.  `renderT` produces the template string.
-/
inductive TItem
  | lit (s : List Char)
  | ph (p : Ph)
deriving DecidableEq, Repr

/-- Render a segmented template to its character list. -/
def renderT : List TItem → List Char
  | [] => []
  | .lit s :: rest => s ++ renderT rest
  | .ph p :: rest => tok p ++ renderT rest

/-- Resolve one placeholder inside a segmented template, replacing each of its
occurrences with the literal value `v`. -/
def resolveItem (k : Ph) (v : List Char) : TItem → TItem
  | .lit s => .lit s
  | .ph p => if p = k then .lit v else .ph p

/-- Resolve all five placeholders, in the order `interpolateTemplate` does. -/
def resolveAllItems (b : RemoteBuilder) (items : List TItem) : List TItem :=
  ((((items.map (resolveItem .profile (phVal b .profile))).map
      (resolveItem .projectDir (phVal b .projectDir))).map
      (resolveItem .envFile (phVal b .envFile))).map
      (resolveItem .logPath (phVal b .logPath))).map
      (resolveItem .statusFile (phVal b .statusFile))

/-- The single-quote character (used pervasively by the shell-quoting code). -/
def squote : Char := Char.ofNat 39

/-- The character class `[A-Za-z0-9_./=-]` of `quoteShellArg`. -/
def isSafeChar (c : Char) : Bool :=
  (decide (65 ≤ c.toNat) && decide (c.toNat ≤ 90)) ||
  (decide (97 ≤ c.toNat) && decide (c.toNat ≤ 122)) ||
  (decide (48 ≤ c.toNat) && decide (c.toNat ≤ 57)) ||
  c == '_' || c == '.' || c == '/' || c == '=' || c == '-'

/-- `value.replace(/'/g, "'\\''")` from `quoteShellArg`. -/
def squoteEscape (s : List Char) : List Char :=
  replaceAll [squote] [squote, '\\', squote, squote] s

/-- `quoteShellArg` from `remoteBuilder.js`: a string entirely of safe
characters (and nonempty, because the regex uses `+`) is returned unchanged;
anything else is wrapped in single quotes with embedded single quotes escaped. -/
def quoteShellArgL (s : List Char) : List Char :=
  if s ≠ [] ∧ s.all isSafeChar then s
  else squote :: (squoteEscape s ++ [squote])

/-- `quoteShellArg` on strings. -/
def quoteShellArg (s : String) : String := (quoteShellArgL s.toList).asString

/-- Characters that a POSIX shell treats specially in an unquoted word
(word-breaking whitespace, quoting characters, expansion and redirection
operators, globbing).  A reference word evaluator refuses them outright. -/
def shellSpecialChars : List Char :=
  [' ', '\t', '\n', '\r', '"', '$', '`', '|', '&', ';', '<', '>', '(', ')',
   '*', '?', '[', '#', '~', '!']

/-- Is the character special to an unquoted POSIX shell word? -/
def isShellSpecial (c : Char) : Bool := shellSpecialChars.contains c

/-- Evaluator mode: outside quotes, or inside a single-quoted segment. -/
inductive SMode
  | out
  | sq
deriving DecidableEq, Repr

/-- Reference POSIX shell single-word evaluation: the word a shell would pass
to a command for the given token text.  Backslash escapes the next character
outside quotes (backslash-newline is a line continuation); single quotes
preserve everything up to the closing quote; special characters and
unterminated quotes make the token not a self-contained literal word, so the
evaluator rejects them. -/
def shellEval : SMode → List Char → Option (List Char)
  | .out, [] => some []
  | .out, c :: rest =>
    if c = squote then shellEval .sq rest
    else if c = '\\' then
      match rest with
      | [] => none
      | d :: rest2 =>
        if d = '\n' then shellEval .out rest2
        else (shellEval .out rest2).map (fun w => d :: w)
    else if isShellSpecial c then none
    else (shellEval .out rest).map (fun w => c :: w)
  | .sq, [] => none
  | .sq, c :: rest =>
    if c = squote then shellEval .out rest
    else (shellEval .sq rest).map (fun w => c :: w)

/-- Node's `path.basename`: the part after the last slash. -/
def jsBasename (p : List Char) : List Char :=
  (p.reverse.takeWhile (fun c => c ≠ '/')).reverse

/-- Node's `path.extname`: from the last dot of the basename (inclusive),
empty if the basename has no dot or only a leading dot. -/
def extname (p : List Char) : List Char :=
  let b := jsBasename p
  let revB := b.reverse
  let afterDot := revB.takeWhile (fun c => c ≠ '.')
  if afterDot.length = revB.length then []
  else if afterDot.length + 1 = revB.length then []
  else '.' :: afterDot.reverse

/-- `path.extname` on strings. -/
def extnameS (p : String) : String := (extname p.toList).asString

/-- The character map of `.replace(/[:.]/g, "-")` in `RemoteBuilder.timestamp`
(a global single-character-class replace is a per-character map). -/
def isoColonPeriod (c : Char) : Char := if c = ':' ∨ c = '.' then '-' else c

/-- `RemoteBuilder.timestamp`, applied to the ISO string the current date
renders to: replace every colon and period with a hyphen, replace the first
`"T"` with a hyphen (`replace` with a string pattern replaces only the first
occurrence), and keep what precedes the first `"Z"` (`.split("Z")[0]`). -/
def timestampL (iso : List Char) : List Char :=
  (replaceFirst ['T'] ['-'] (iso.map isoColonPeriod)).takeWhile (fun c => c ≠ 'Z')

/-- `RemoteBuilder.timestamp` on strings. -/
def timestamp (iso : String) : String := (timestampL iso.toList).asString

/-- Outcome of `RemoteBuilder.retrieveArtifact`: the selected (interpolated)
remote path together with the local artifact name it is copied to, or the
`"No build artifact was found on the remote server"` error. -/
inductive RetrieveResult
  | found (remotePath : String) (artifactName : String)
  | notFound
deriving DecidableEq, Repr

/-- The candidate walk inside `retrieveArtifact`: interpolate each candidate in
configured order, test it remotely (`test -f`), and on the first hit derive the
local artifact name from the timestamp and the candidate's extension.
`fileExists` abstracts the remote `test -f` probe (exit status 0), and `iso`
the ISO rendering of the current date. -/
def retrieveGo (b : RemoteBuilder) (fileExists : String → Bool) (iso : String) :
    List String → RetrieveResult
  | [] => .notFound
  | c :: rest =>
    let remoteCandidate := interpolateTemplate b c
    if fileExists remoteCandidate then
      .found remoteCandidate ("build-" ++ timestamp iso ++ extnameS remoteCandidate)
    else retrieveGo b fileExists iso rest

/-- `RemoteBuilder.retrieveArtifact` (the copy itself is delegated to `scp`
and not modelled; the result records which remote path is copied and under
which local name). -/
def retrieveArtifact (b : RemoteBuilder) (fileExists : String → Bool) (iso : String) :
    RetrieveResult :=
  retrieveGo b fileExists iso b.artifactCandidates

/-- The remote facts `monitorBuild` can observe through its SSH probes. -/
structure RemoteState where
  existingFiles : List String
  easBuildRunning : Bool
  npmInstallRunning : Bool
  gradlewRunning : Bool
deriving DecidableEq, Repr

/-- Remote `test -f path` (exit status 0 iff the file exists). -/
def pathExists (s : RemoteState) (p : String) : Bool := s.existingFiles.contains p

/-- Terminal outcome of the monitoring loop: `"Build completed"` break, or the
`"Remote build failed"` error. -/
inductive MonOutcome
  | completed
  | crashed
deriving DecidableEq, Repr

/-- The pgrep chain `monitorBuild` runs to see whether any tracked build
process is alive. -/
def pgrepCmd : String :=
  "pgrep -f \x27eas-cli build\x27 >/dev/null || pgrep -f \x27npm install\x27 >/dev/null || pgrep -f \x27gradlew\x27 >/dev/null"

/-- The candidate probes of one monitoring iteration: `test -f` on each
interpolated candidate in order, stopping at the first one that exists.
Returns the commands issued and whether a candidate was found. -/
def candidateCheckCmds (b : RemoteBuilder) (s : RemoteState) :
    List String → List String × Bool
  | [] => ([], false)
  | c :: rest =>
    let rc := interpolateTemplate b c
    let cmd := "test -f " ++ quoteShellArg rc
    if pathExists s rc then ([cmd], true)
    else
      let step := candidateCheckCmds b s rest
      (cmd :: step.1, step.2)

/-- One iteration of the `while (true)` loop of `RemoteBuilder.monitorBuild`:
the remote commands it issues and either a terminal outcome or `none` (print a
3-line log tail, sleep 30 s, iterate again). -/
def monitorTick (b : RemoteBuilder) (s : RemoteState) : List String × Option MonOutcome :=
  let statusCmd := "test -f " ++ quoteShellArg b.remoteStatusFile
  if pathExists s b.remoteStatusFile then ([statusCmd], some .completed)
  else if s.easBuildRunning || s.npmInstallRunning || s.gradlewRunning then
    ([statusCmd, pgrepCmd, "tail -3 " ++ quoteShellArg b.remoteLogPath], none)
  else
    let step := candidateCheckCmds b s b.artifactCandidates
    if step.2 then ([statusCmd, pgrepCmd] ++ step.1, some .completed)
    else
      ([statusCmd, pgrepCmd] ++ step.1 ++ ["tail -100 " ++ quoteShellArg b.remoteLogPath],
        some .crashed)

/-- `RemoteBuilder.monitorBuild` against an unchanging remote state, with
explicit fuel standing for the number of loop iterations observed; `none`
means the loop is still polling after that many iterations. -/
def monitorBuild (b : RemoteBuilder) (s : RemoteState) : Nat → Option MonOutcome
  | 0 => none
  | fuel + 1 =>
    match (monitorTick b s).2 with
    | some o => some o
    | none => monitorBuild b s fuel

/-- The bounded SSH-reachability loop of `RemoteBuilder.waitForServer`:
`probe k` is the exit-status-zero test of the `k`-th `echo ready` attempt.
Returns the final value of `attempt` together with the list of sleeps
performed (one `5000` ms delay after each failed probe). -/
def waitLoop (probe : Nat → Bool) : Nat → Nat → Nat × List Nat
  | 0, attempt => (attempt, [])
  | r + 1, attempt =>
    if probe attempt then (attempt, [])
    else
      let step := waitLoop probe r (attempt + 1)
      (step.1, 5000 :: step.2)

/-- The reachability wait of `RemoteBuilder.waitForServer`: 60 attempts, then
`attempt === maxAttempts` raises `"Timeout waiting for SSH access"`; otherwise
the wait returns (the subsequent cloud-init and apt-lock waits are separate). -/
def waitForServer (probe : Nat → Bool) : Except String (Nat × List Nat) :=
  let r := waitLoop probe 60 0
  if r.1 = 60 then Except.error "Timeout waiting for SSH access"
  else Except.ok r

/-- The ways a run can end, per the handlers `registerCleanup` installs:
normal process exit (the `exit` event), `SIGINT`, `SIGTERM`, and
`uncaughtException` (which also covers a fatal error thrown by the run once it
reaches the top level). -/
inductive ExitPath
  | normal
  | sigint
  | sigterm
  | uncaughtException
deriving DecidableEq, Fintype, Repr

/-- One invocation of the `cleanupHandler` closure: it physically destroys the
server (spawns `hcloud server delete`) exactly when `this.serverId` is set,
i.e. when `createServer` previously parsed a non-null instance id. -/
def cleanupHandlerDestroys (serverId : Option String) : Nat :=
  if serverId.isSome then 1 else 0

/-- Total number of physical destroy invocations on a given exit path, by the
handlers `registerCleanup` installs: the `exit` listener runs `cleanupHandler`
once; the `SIGINT`/`SIGTERM`/`uncaughtException` listeners run
`cleanupHandler` and then call `process.exit(1)`, which fires the `exit`
listener and therefore runs `cleanupHandler` a second time.  Nothing in the
code clears `serverId` or latches "destroy attempted". -/
def destroyCallCount (p : ExitPath) (serverId : Option String) : Nat :=
  match p with
  | .normal => cleanupHandlerDestroys serverId
  | .sigint => cleanupHandlerDestroys serverId + cleanupHandlerDestroys serverId
  | .sigterm => cleanupHandlerDestroys serverId + cleanupHandlerDestroys serverId
  | .uncaughtException => cleanupHandlerDestroys serverId + cleanupHandlerDestroys serverId

/-- JS truthy property lookup on a string-valued config object: an absent key
and an empty-string value are both falsy. -/
def truthyLookup (m : List (String × String)) (k : String) : Option String :=
  match m.lookup k with
  | some v => if v = "" then none else some v
  | none => none

/-- `this.artifactMapping[this.profile] || this.artifactMapping.default` from
`RemoteBuilder.runBuild`; `none` models the subsequent
`"No artifact path defined for this profile"` error. -/
def outputTemplateFor (m : List (String × String)) (p : String) : Option String :=
  match truthyLookup m p with
  | some v => some v
  | none => truthyLookup m "default"

/-- The interpolated remote build output path computed by `runBuild`. -/
def remoteOutputPath (b : RemoteBuilder) : Option String :=
  (outputTemplateFor b.artifactForProfile b.profile).map (fun t => interpolateTemplate b t)

/-- The whitespace class trimmed by JS `String.prototype.trim`. -/
def isWsChar (c : Char) : Bool :=
  c == ' ' || c == '\t' || c == '\n' || c == '\r' || c == '\x0b' || c == '\x0c'

/-- JS `line.trim()`. -/
def trimL (s : List Char) : List Char :=
  ((s.dropWhile isWsChar).reverse.dropWhile isWsChar).reverse

/-- JS `contents.split(/\r?\n/)`: split at each newline, folding an
immediately preceding carriage return into the separator. -/
def splitLines : List Char → List (List Char)
  | [] => [[]]
  | '\r' :: '\n' :: rest => [] :: splitLines rest
  | '\n' :: rest => [] :: splitLines rest
  | c :: rest =>
    match splitLines rest with
    | [] => [[c]]
    | l :: ls => (c :: l) :: ls

/-- Split at the first `=` (`trimmed.indexOf("=")`): `none` when there is
none, otherwise the text before and after it. -/
def breakAtEq : List Char → Option (List Char × List Char)
  | [] => none
  | c :: rest =>
    if c = '=' then some ([], rest)
    else (breakAtEq rest).map (fun pr => (c :: pr.1, pr.2))

/-- The escape processing of a double-quoted env value:
`.replace(/\\"/g, '"').replace(/\\n/g, "\n")`, in that order. -/
def unescapeDQ (v : List Char) : List Char :=
  replaceAll ['\\', 'n'] ['\n'] (replaceAll ['\\', '"'] ['"'] v)

/-- `parseEnvLine` from `envLoader.js`. -/
def parseEnvLine (line : List Char) : Option (List Char × List Char) :=
  let trimmed := trimL line
  if trimmed = [] then none
  else if trimmed.take 1 = ['#'] then none
  else
    match breakAtEq trimmed with
    | none => none
    | some pr =>
      let key := trimL pr.1
      let value0 := trimL pr.2
      let value :=
        if value0.take 1 = ['"'] ∧ value0.reverse.take 1 = ['"'] then
          unescapeDQ (value0.drop 1).dropLast
        else if value0.take 1 = [squote] ∧ value0.reverse.take 1 = [squote] then
          (value0.drop 1).dropLast
        else value0
      if key = [] then none else some (key, value)

/-- A directory entry as `loadEnvFromFolder` sees it: a file name and the
file's contents. -/
structure EnvFile where
  name : String
  contents : String
deriving DecidableEq, Repr

/-- JS object assignment `result[key] = value`: overwrite the existing entry
in place, or append a new one. -/
def upsert (k v : String) : List (String × String) → List (String × String)
  | [] => [(k, v)]
  | kv :: rest => if kv.1 = k then (kv.1, v) :: rest else kv :: upsert k v rest

/-- Strict lexicographic order on character lists (the ordering
`localeCompare` yields on plain ASCII file names). -/
def lexLt : List Char → List Char → Bool
  | [], [] => false
  | [], _ :: _ => true
  | _ :: _, [] => false
  | a :: as, b :: bs => decide (a < b) || (a == b && lexLt as bs)

/-- One step of a stable insertion sort by file name (the
`sort((a, b) => a.name.localeCompare(b.name))` of `loadEnvFromFolder`,
for names compared codepoint-wise). -/
def insertSortedFile (f : EnvFile) : List EnvFile → List EnvFile
  | [] => [f]
  | g :: rest =>
    if lexLt f.name.toList g.name.toList then f :: g :: rest
    else g :: insertSortedFile f rest

/-- Name-sort the directory entries. -/
def sortFiles (files : List EnvFile) : List EnvFile :=
  files.foldl (fun acc f => insertSortedFile f acc) []

/-- Process one env file: parse every line and assign each parsed pair into
the accumulated result object. -/
def applyEnvFile (acc : List (String × String)) (f : EnvFile) : List (String × String) :=
  (splitLines f.contents.toList).foldl
    (fun acc line =>
      match parseEnvLine line with
      | some kv => upsert kv.1.asString kv.2.asString acc
      | none => acc)
    acc

/-- `loadEnvFromFolder` from `envLoader.js` on an in-memory directory listing:
files in name-sorted order, later files overriding earlier keys. -/
def loadEnvFromFolder (files : List EnvFile) : List (String × String) :=
  (sortFiles files).foldl applyEnvFile []

/-- JS `arg.startsWith("-")`. -/
def startsWithDash (s : String) : Bool := decide (s.toList.take 1 = ['-'])

/-- Result of the CLI argument parser `parseArgs` from `cli.js`: the selected
profile and env folder, the `--help` exit, or a thrown `Missing ...` error. -/
inductive CliParse
  | ok (profile envFolder : String)
  | help
  | err (msg : String)
deriving DecidableEq, Repr

/-- The argument loop of `parseArgs` (state: remaining args, current profile,
current env folder, `usedProfile`). -/
def parseArgsGo : List String → String → String → Bool → CliParse
  | [], profile, envFolder, _ => .ok profile envFolder
  | arg :: rest, profile, envFolder, usedProfile =>
    if arg = "--help" ∨ arg = "-h" then .help
    else if arg = "--profile" ∨ arg = "-p" then
      match rest with
      | v :: rest2 =>
        if v ≠ "" ∧ startsWithDash v = false then parseArgsGo rest2 v envFolder true
        else .err ("Missing profile after " ++ arg)
      | [] => .err ("Missing profile after " ++ arg)
    else if arg = "--env-folder" ∨ arg = "-e" then
      match rest with
      | v :: rest2 =>
        if v ≠ "" ∧ startsWithDash v = false then parseArgsGo rest2 profile v usedProfile
        else .err ("Missing env folder after " ++ arg)
      | [] => .err ("Missing env folder after " ++ arg)
    else if usedProfile = false ∧ startsWithDash arg = false then
      parseArgsGo rest arg envFolder true
    else parseArgsGo rest profile envFolder usedProfile

/-- `parseArgs(argv)` after the `argv.slice(2)`: defaults are profile
`"preview"` and env folder `".env"`. -/
def parseArgs (args : List String) : CliParse := parseArgsGo args "preview" ".env" false

/-- The artifact file name exactly as the specification words it: the prefix
`build-`, the ISO timestamp with every colon and period replaced by a hyphen
and the trailing time-zone suffix stripped, and the candidate's extension.
(Spec-side definition, for comparison with the code's naming.) -/
def specProseArtifactName (iso ext : String) : String :=
  "build-" ++ ((iso.toList.map isoColonPeriod).takeWhile (fun c => c ≠ 'Z')).asString ++ ext

/-- The artifact file name as the amended wording has it: additionally the
date-time separator `T` is replaced by a hyphen.  (Spec-side definition.) -/
def specAmendedArtifactName (iso ext : String) : String :=
  "build-" ++
    (((iso.toList.map isoColonPeriod).map (fun c => if c = 'T' then '-' else c)).takeWhile
      (fun c => c ≠ 'Z')).asString ++ ext

/-- Do two character lists disagree at some position that lies within both?
(If so, neither is a prefix of the other, whatever follows them.) -/
def divergeB : List Char → List Char → Bool
  | a :: as, b :: bs => (a != b) || (a == b && divergeB as bs)
  | _, _ => false

/-- Every literal segment of a segmented template is dollar-free. -/
def litsDollarFree : List TItem → Bool
  | [] => true
  | .lit s :: rest => dollarFree s && litsDollarFree rest
  | .ph _ :: rest => litsDollarFree rest

/-- All five interpolation values of a builder are dollar-free. -/
def valsDollarFree (b : RemoteBuilder) : Bool :=
  dollarFree b.profile.toList && dollarFree b.remoteProjectDir.toList &&
  dollarFree b.remoteEnvFile.toList && dollarFree b.remoteLogPath.toList &&
  dollarFree b.remoteStatusFile.toList

/-- A configuration whose status-file path contains a placeholder token (legal:
every configuration field may be overridden by `htzbuild.config.json`). -/
def statusFileLoopBuilder : RemoteBuilder :=
  { defaultBuilder "preview" with remoteStatusFile := "${PROFILE}" }

/-- The `artifactForProfile` mapping of the specification's two scenarios. -/
def scenarioBuilder (profile : String) : RemoteBuilder :=
  { defaultBuilder profile with
    artifactForProfile :=
      [("production", "/root/out-${PROFILE}.aab"), ("default", "/root/out.apk")] }

/-- A configuration in which the selected profile's entry is the empty string
(a falsy value to the `||` fallback in `runBuild`). -/
def emptyEntryBuilder : RemoteBuilder :=
  { defaultBuilder "production" with
    artifactForProfile := [("production", ""), ("default", "/root/out.apk")] }

/-! ## Generic lemmas about the string machinery -/

theorem replaceAllFuel_eq_of_le (pat rep : List Char) :
    ∀ (f1 : Nat) (s : List Char) (f2 : Nat), s.length ≤ f1 → s.length ≤ f2 →
      replaceAllFuel pat rep f1 s = replaceAllFuel pat rep f2 s := by
  intro f1
  induction f1 with
  | zero =>
    intro s f2 h1 _
    have hs : s = [] := List.eq_nil_of_length_eq_zero (Nat.le_zero.mp h1)
    subst hs
    cases f2 <;> rfl
  | succ f ih =>
    intro s f2 h1 h2
    cases s with
    | nil => cases f2 <;> rfl
    | cons c rest =>
      cases f2 with
      | zero => simp at h2
      | succ g =>
        simp only [replaceAllFuel]
        by_cases hc : 0 < pat.length ∧ (c :: rest).take pat.length = pat
        · rw [if_pos hc, if_pos hc]
          have hp := hc.1
          have hd1 : ((c :: rest).drop pat.length).length ≤ f := by
            simp only [List.length_drop, List.length_cons]
            simp only [List.length_cons] at h1
            omega
          have hd2 : ((c :: rest).drop pat.length).length ≤ g := by
            simp only [List.length_drop, List.length_cons]
            simp only [List.length_cons] at h2
            omega
          rw [ih _ g hd1 hd2]
        · rw [if_neg hc, if_neg hc]
          have hr1 : rest.length ≤ f := by
            simp only [List.length_cons] at h1
            omega
          have hr2 : rest.length ≤ g := by
            simp only [List.length_cons] at h2
            omega
          rw [ih rest g hr1 hr2]

theorem replaceAll_nil (pat rep : List Char) : replaceAll pat rep [] = [] := rfl

theorem replaceAll_cons (pat rep : List Char) (c : Char) (rest : List Char) :
    replaceAll pat rep (c :: rest) =
      if 0 < pat.length ∧ (c :: rest).take pat.length = pat then
        rep ++ replaceAll pat rep ((c :: rest).drop pat.length)
      else c :: replaceAll pat rep rest := by
  show replaceAllFuel pat rep (c :: rest).length (c :: rest) = _
  simp only [List.length_cons, replaceAllFuel]
  by_cases hc : 0 < pat.length ∧ (c :: rest).take pat.length = pat
  · rw [if_pos hc, if_pos hc]
    have heq : replaceAll pat rep ((c :: rest).drop pat.length) =
        replaceAllFuel pat rep ((c :: rest).drop pat.length).length
          ((c :: rest).drop pat.length) := rfl
    rw [heq]
    have hp := hc.1
    congr 1
    apply replaceAllFuel_eq_of_le
    · simp only [List.length_drop, List.length_cons]
      omega
    · exact Nat.le_refl _
  · rw [if_neg hc, if_neg hc]
    rfl

theorem dollarFree_cons {c : Char} {s : List Char} (h : dollarFree (c :: s) = true) :
    c ≠ '$' ∧ dollarFree s = true := by
  simp only [dollarFree, List.all_cons, Bool.and_eq_true, decide_eq_true_eq] at h
  exact h

theorem replaceAll_append_left (pat rep : List Char) (hpat : ∃ pt, pat = '$' :: pt)
    (ys : List Char) {s : List Char} (hs : dollarFree s = true) :
    replaceAll pat rep (s ++ ys) = s ++ replaceAll pat rep ys := by
  obtain ⟨pt, rfl⟩ := hpat
  induction s with
  | nil => simp
  | cons c s ih =>
    obtain ⟨hc, hs'⟩ := dollarFree_cons hs
    have hneg : ¬(0 < ('$' :: pt).length ∧
        (c :: (s ++ ys)).take ('$' :: pt).length = '$' :: pt) := by
      rintro ⟨-, htake⟩
      rw [List.length_cons, List.take_succ_cons] at htake
      simp only [List.cons.injEq] at htake
      exact hc htake.1
    rw [List.cons_append, replaceAll_cons, if_neg hneg, ih hs', List.cons_append]

theorem replaceAll_prefix_match (pat rep ys : List Char) (hne : pat ≠ []) :
    replaceAll pat rep (pat ++ ys) = rep ++ replaceAll pat rep ys := by
  cases pat with
  | nil => exact absurd rfl hne
  | cons p pt =>
    have htake : (p :: (pt ++ ys)).take (p :: pt).length = p :: pt := by
      rw [← List.cons_append]
      exact List.take_left _ _
    have hdrop : (p :: (pt ++ ys)).drop (p :: pt).length = ys := by
      rw [← List.cons_append]
      exact List.drop_left _ _
    rw [List.cons_append, replaceAll_cons, if_pos ⟨by simp, htake⟩, hdrop]

theorem take_ne_of_divergeB :
    ∀ (pat s : List Char), divergeB pat s = true →
      ∀ ys : List Char, (s ++ ys).take pat.length ≠ pat := by
  intro pat
  induction pat with
  | nil => intro s h; cases s <;> simp [divergeB] at h
  | cons a as ih =>
    intro s h ys
    cases s with
    | nil => simp [divergeB] at h
    | cons b bs =>
      simp only [divergeB, Bool.or_eq_true, bne_iff_ne, Bool.and_eq_true,
        beq_iff_eq] at h
      rw [List.cons_append, List.length_cons, List.take_succ_cons]
      intro heq
      simp only [List.cons.injEq] at heq
      obtain ⟨hba, htail⟩ := heq
      rcases h with hne | ⟨-, hdiv⟩
      · exact hne hba.symm
      · exact ih bs hdiv ys htail

theorem replaceAll_skip_block (pat rep : List Char) (hpat : ∃ pt, pat = '$' :: pt)
    (t ys : List Char) (ht : ∃ ts, t = '$' :: ts ∧ dollarFree ts = true)
    (hdiv : divergeB pat t = true) :
    replaceAll pat rep (t ++ ys) = t ++ replaceAll pat rep ys := by
  obtain ⟨ts, rfl, hts⟩ := ht
  have hneg : ¬(0 < pat.length ∧ ('$' :: (ts ++ ys)).take pat.length = pat) := by
    rintro ⟨-, htake⟩
    apply take_ne_of_divergeB pat ('$' :: ts) hdiv ys
    rw [List.cons_append]
    exact htake
  rw [List.cons_append, replaceAll_cons, if_neg hneg,
    replaceAll_append_left pat rep hpat ys hts, List.cons_append]

theorem replaceAll_id_of_dollarFree (pat rep : List Char) (hpat : ∃ pt, pat = '$' :: pt)
    {s : List Char} (hs : dollarFree s = true) : replaceAll pat rep s = s := by
  have h := replaceAll_append_left pat rep hpat [] hs
  simpa [replaceAll_nil] using h

theorem occursB_eq_false_of_dollarFree (pat : List Char) (hpat : ∃ pt, pat = '$' :: pt)
    {s : List Char} (hs : dollarFree s = true) : occursB pat s = false := by
  obtain ⟨pt, rfl⟩ := hpat
  induction s with
  | nil => simp [occursB]
  | cons c rest ih =>
    obtain ⟨hc, hs'⟩ := dollarFree_cons hs
    simp only [occursB, List.length_cons, List.take_succ_cons, Bool.or_eq_false_iff,
      decide_eq_false_iff_not]
    refine ⟨fun heq => ?_, ih hs'⟩
    simp only [List.cons.injEq] at heq
    exact hc heq.1

theorem tok_shape : ∀ p : Ph, ∃ ts, tok p = '$' :: ts ∧ dollarFree ts = true := by
  intro p
  cases p with
  | profile => exact ⟨"{PROFILE}".toList, by decide, by decide⟩
  | projectDir => exact ⟨"{REMOTE_PROJECT_DIR}".toList, by decide, by decide⟩
  | envFile => exact ⟨"{REMOTE_ENV_FILE}".toList, by decide, by decide⟩
  | logPath => exact ⟨"{REMOTE_LOG_PATH}".toList, by decide, by decide⟩
  | statusFile => exact ⟨"{REMOTE_STATUS_FILE}".toList, by decide, by decide⟩

theorem tok_head (p : Ph) : ∃ pt, tok p = '$' :: pt :=
  (tok_shape p).imp fun _ h => h.1

theorem tok_ne_nil (p : Ph) : tok p ≠ [] := by
  cases p <;> decide

theorem tok_divergeB : ∀ p q : Ph, p ≠ q → divergeB (tok p) (tok q) = true := by
  decide

theorem litsDollarFree_cons_lit {s : List Char} {rest : List TItem}
    (h : litsDollarFree (TItem.lit s :: rest) = true) :
    dollarFree s = true ∧ litsDollarFree rest = true := by
  simp only [litsDollarFree, Bool.and_eq_true] at h
  exact h

theorem litsDollarFree_cons_ph {p : Ph} {rest : List TItem}
    (h : litsDollarFree (TItem.ph p :: rest) = true) : litsDollarFree rest = true := h

theorem replaceAll_renderT (k : Ph) (v : List Char) :
    ∀ items : List TItem, litsDollarFree items = true →
      replaceAll (tok k) v (renderT items) = renderT (items.map (resolveItem k v)) := by
  intro items
  induction items with
  | nil => simp [renderT, replaceAll_nil]
  | cons it rest ih =>
    intro hlits
    cases it with
    | lit s =>
      obtain ⟨hs, hrest⟩ := litsDollarFree_cons_lit hlits
      simp only [renderT, List.map_cons, resolveItem]
      rw [replaceAll_append_left (tok k) v (tok_head k) _ hs, ih hrest]
    | ph p =>
      have hrest := litsDollarFree_cons_ph hlits
      by_cases hp : p = k
      · subst hp
        simp only [renderT, List.map_cons, resolveItem, if_pos rfl]
        rw [replaceAll_prefix_match _ _ _ (tok_ne_nil p), ih hrest]
      · simp only [renderT, List.map_cons, resolveItem, if_neg hp]
        rw [replaceAll_skip_block _ _ (tok_head k) _ _ (tok_shape p)
          (tok_divergeB k p (fun h => hp h.symm)), ih hrest]

theorem litsDollarFree_map_resolve (k : Ph) (v : List Char) (hv : dollarFree v = true) :
    ∀ items : List TItem, litsDollarFree items = true →
      litsDollarFree (items.map (resolveItem k v)) = true := by
  intro items
  induction items with
  | nil => intro h; exact h
  | cons it rest ih =>
    intro h
    cases it with
    | lit s =>
      obtain ⟨hs, hrest⟩ := litsDollarFree_cons_lit h
      simp only [List.map_cons, resolveItem, litsDollarFree, Bool.and_eq_true]
      exact ⟨hs, ih hrest⟩
    | ph p =>
      have hrest := litsDollarFree_cons_ph h
      simp only [List.map_cons, resolveItem]
      by_cases hp : p = k
      · rw [if_pos hp]
        simp only [litsDollarFree, Bool.and_eq_true]
        exact ⟨hv, ih hrest⟩
      · rw [if_neg hp]
        exact ih hrest

theorem phVal_dollarFree {b : RemoteBuilder} (hb : valsDollarFree b = true) (p : Ph) :
    dollarFree (phVal b p) = true := by
  simp only [valsDollarFree, Bool.and_eq_true] at hb
  cases p with
  | profile => exact hb.1.1.1.1
  | projectDir => exact hb.1.1.1.2
  | envFile => exact hb.1.1.2
  | logPath => exact hb.1.2
  | statusFile => exact hb.2

theorem interpolateL_renderT (b : RemoteBuilder) (hb : valsDollarFree b = true)
    (items : List TItem) (hlits : litsDollarFree items = true) :
    interpolateL b (renderT items) = renderT (resolveAllItems b items) := by
  have h1 := litsDollarFree_map_resolve .profile _ (phVal_dollarFree hb .profile)
    items hlits
  have h2 := litsDollarFree_map_resolve .projectDir _ (phVal_dollarFree hb .projectDir)
    _ h1
  have h3 := litsDollarFree_map_resolve .envFile _ (phVal_dollarFree hb .envFile) _ h2
  have h4 := litsDollarFree_map_resolve .logPath _ (phVal_dollarFree hb .logPath) _ h3
  unfold interpolateL resolveAllItems
  rw [replaceAll_renderT .profile _ _ hlits, replaceAll_renderT .projectDir _ _ h1,
    replaceAll_renderT .envFile _ _ h2, replaceAll_renderT .logPath _ _ h3,
    replaceAll_renderT .statusFile _ _ h4]

theorem renderT_resolveAll_dollarFree (b : RemoteBuilder) (hb : valsDollarFree b = true) :
    ∀ items : List TItem, litsDollarFree items = true →
      dollarFree (renderT (resolveAllItems b items)) = true := by
  intro items
  induction items with
  | nil => intro _; rfl
  | cons it rest ih =>
    intro h
    have hstep : ∀ jt : TItem, ∀ js : List TItem,
        resolveAllItems b (jt :: js) =
          (resolveItem .statusFile (phVal b .statusFile)
            (resolveItem .logPath (phVal b .logPath)
              (resolveItem .envFile (phVal b .envFile)
                (resolveItem .projectDir (phVal b .projectDir)
                  (resolveItem .profile (phVal b .profile) jt))))) ::
            resolveAllItems b js := by
      intro jt js
      simp [resolveAllItems]
    cases it with
    | lit s =>
      obtain ⟨hs, hrest⟩ := litsDollarFree_cons_lit h
      rw [hstep]
      simp only [resolveItem, renderT, dollarFree, List.all_append, Bool.and_eq_true]
      exact ⟨hs, ih hrest⟩
    | ph p =>
      have hrest := litsDollarFree_cons_ph h
      rw [hstep]
      cases p with
      | profile =>
        simp only [resolveItem, reduceIte, renderT, dollarFree, List.all_append,
          Bool.and_eq_true]
        exact ⟨phVal_dollarFree hb .profile, ih hrest⟩
      | projectDir =>
        simp only [resolveItem, reduceIte, renderT, dollarFree, List.all_append,
          Bool.and_eq_true]
        exact ⟨phVal_dollarFree hb .projectDir, ih hrest⟩
      | envFile =>
        simp only [resolveItem, reduceIte, renderT, dollarFree, List.all_append,
          Bool.and_eq_true]
        exact ⟨phVal_dollarFree hb .envFile, ih hrest⟩
      | logPath =>
        simp only [resolveItem, reduceIte, renderT, dollarFree, List.all_append,
          Bool.and_eq_true]
        exact ⟨phVal_dollarFree hb .logPath, ih hrest⟩
      | statusFile =>
        simp only [resolveItem, reduceIte, renderT, dollarFree, List.all_append,
          Bool.and_eq_true]
        exact ⟨phVal_dollarFree hb .statusFile, ih hrest⟩

theorem interpolateL_id_of_dollarFree (b : RemoteBuilder) {s : List Char}
    (hs : dollarFree s = true) : interpolateL b s = s := by
  unfold interpolateL
  rw [replaceAll_id_of_dollarFree _ _ (tok_head .profile) hs,
    replaceAll_id_of_dollarFree _ _ (tok_head .projectDir) hs,
    replaceAll_id_of_dollarFree _ _ (tok_head .envFile) hs,
    replaceAll_id_of_dollarFree _ _ (tok_head .logPath) hs,
    replaceAll_id_of_dollarFree _ _ (tok_head .statusFile) hs]

/-! ## C2: idempotence and totality of template interpolation -/

/--
C2, counterexample.  The claim quantifies over every configuration and every
profile, but interpolation is neither total nor idempotent when a
configuration value itself contains a placeholder token: with
`remoteStatusFile = "${PROFILE}"`, the template `"${REMOTE_STATUS_FILE}"`
(which consists of a single known placeholder) interpolates to `"${PROFILE}"`,
a string that still contains an unresolved placeholder token and that a second
interpolation changes to `"preview"`.
-/
theorem interpolateTemplate_counterexample :
    "${REMOTE_STATUS_FILE}" = (renderT [TItem.ph .statusFile]).asString ∧
    occursB (tok .profile)
      (interpolateTemplate statusFileLoopBuilder "${REMOTE_STATUS_FILE}").toList = true ∧
    interpolateTemplate statusFileLoopBuilder
        (interpolateTemplate statusFileLoopBuilder "${REMOTE_STATUS_FILE}") ≠
      interpolateTemplate statusFileLoopBuilder "${REMOTE_STATUS_FILE}" := by
  refine ⟨by decide, by decide, by decide⟩

/--
C2, amended.  For every configuration and profile whose five interpolation
values contain no dollar character, interpolating a template that consists
solely of known placeholders and dollar-free literal text yields a result in
which no placeholder token occurs, and interpolating that result again leaves
it unchanged.
-/
theorem interpolateTemplate_idempotent_total (b : RemoteBuilder) (items : List TItem)
    (hb : valsDollarFree b = true) (hlits : litsDollarFree items = true) :
    (∀ p : Ph,
      occursB (tok p) (interpolateTemplate b (renderT items).asString).toList = false) ∧
    interpolateTemplate b (interpolateTemplate b (renderT items).asString) =
      interpolateTemplate b (renderT items).asString := by
  have hdf : dollarFree (interpolateL b (renderT items)) = true := by
    rw [interpolateL_renderT b hb items hlits]
    exact renderT_resolveAll_dollarFree b hb items hlits
  constructor
  · intro p
    show occursB (tok p) (interpolateL b (renderT items)) = false
    exact occursB_eq_false_of_dollarFree _ (tok_head p) hdf
  · show (interpolateL b (interpolateL b (renderT items))).asString =
      (interpolateL b (renderT items)).asString
    rw [interpolateL_id_of_dollarFree b hdf]

/-- C2, witness: the amended theorem applied to the default configuration with
profile `"preview"` and the template `"x-${PROFILE}.apk"`. -/
theorem interpolateTemplate_idempotent_total_witness :
    valsDollarFree (defaultBuilder "preview") = true ∧
    litsDollarFree [TItem.lit "x-".toList, TItem.ph .profile, TItem.lit ".apk".toList] = true ∧
    ((∀ p : Ph,
      occursB (tok p)
        (interpolateTemplate (defaultBuilder "preview")
          (renderT [TItem.lit "x-".toList, TItem.ph .profile,
            TItem.lit ".apk".toList]).asString).toList = false) ∧
    interpolateTemplate (defaultBuilder "preview")
        (interpolateTemplate (defaultBuilder "preview")
          (renderT [TItem.lit "x-".toList, TItem.ph .profile,
            TItem.lit ".apk".toList]).asString) =
      interpolateTemplate (defaultBuilder "preview")
        (renderT [TItem.lit "x-".toList, TItem.ph .profile,
          TItem.lit ".apk".toList]).asString) :=
  ⟨by decide, by decide,
    interpolateTemplate_idempotent_total (defaultBuilder "preview")
      [TItem.lit "x-".toList, TItem.ph .profile, TItem.lit ".apk".toList]
      (by decide) (by decide)⟩

/-! ## C8: env-folder loading -/

theorem upsert_lookup :
    ∀ (acc : List (String × String)) (k v : String),
      (upsert k v acc).lookup k = some v := by
  intro acc
  induction acc with
  | nil => intro k v; simp [upsert, List.lookup]
  | cons kv rest ih =>
    obtain ⟨k', v'⟩ := kv
    intro k v
    by_cases h : k' = k
    · subst h
      simp [upsert, List.lookup]
    · have hb : (k == k') = false := by
        simp only [beq_eq_false_iff_ne, ne_eq]
        exact fun heq => h heq.symm
      simp only [upsert, if_neg h, List.lookup, hb]
      exact ih k v

/--
C8.  Environment-folder loading processes files in name-sorted order with
later files overriding earlier ones, and quoted values materialize escaped
sequences: the directory `{b.env: "KEY=plain", a.env: "KEY=\"va\nl\""}` sorts
`a.env` first, the intermediate mapping after `a.env` alone materializes the
`\n` escape as a real newline, and the final mapping is `{KEY: "plain"}`;
moreover an object assignment always makes the latest write win.
-/
theorem loadEnvFromFolder_sorted_override :
    sortFiles [⟨"b.env", "KEY=plain"⟩, ⟨"a.env", "KEY=\"va\\nl\""⟩] =
      [⟨"a.env", "KEY=\"va\\nl\""⟩, ⟨"b.env", "KEY=plain"⟩] ∧
    applyEnvFile [] ⟨"a.env", "KEY=\"va\\nl\""⟩ = [("KEY", "va\nl")] ∧
    loadEnvFromFolder [⟨"b.env", "KEY=plain"⟩, ⟨"a.env", "KEY=\"va\\nl\""⟩] =
      [("KEY", "plain")] ∧
    ∀ (acc : List (String × String)) (k v : String),
      (upsert k v acc).lookup k = some v :=
  ⟨by decide, by decide, by decide, upsert_lookup⟩

/-! ## C1: the cleanup guard -/

/--
C1, counterexample.  On the `SIGINT` path with a provisioned server the
handler runs `cleanupHandler` and then calls `process.exit(1)`, which fires
the `exit` listener and runs `cleanupHandler` again; since `serverId` is never
cleared and no "destroy attempted" latch exists, the physical destroy is
performed twice in that run, contradicting "at most once".
-/
theorem cleanup_destroy_twice_on_sigint :
    destroyCallCount .sigint (some "12345") = 2 ∧
    ¬ destroyCallCount .sigint (some "12345") ≤ 1 := by
  refine ⟨rfl, by decide⟩

/--
C1, amended.  On every exit path, some destroy call occurs iff a create call
previously recorded a non-null instance identifier; on normal completion the
destroy is performed exactly once, but on the interrupt-signal,
termination-signal and uncaught-error paths it is performed exactly twice
(signal handler plus exit listener), never more.
-/
theorem cleanup_destroy_iff_serverId (p : ExitPath) (serverId : Option String) :
    (0 < destroyCallCount p serverId ↔ serverId.isSome = true) ∧
    destroyCallCount .normal serverId = cleanupHandlerDestroys serverId ∧
    destroyCallCount p serverId ≤ 2 ∧
    (serverId = none → destroyCallCount p serverId = 0) ∧
    (p ≠ .normal → serverId.isSome = true → destroyCallCount p serverId = 2) := by
  cases serverId <;> cases p <;>
    simp [destroyCallCount, cleanupHandlerDestroys]

/-- C1, witness: the amended theorem at the SIGINT path with server id
`"12345"`. -/
theorem cleanup_destroy_iff_serverId_witness :
    (0 < destroyCallCount .sigint (some "12345") ↔
      (some "12345").isSome = true) ∧
    destroyCallCount .normal (some "12345") = cleanupHandlerDestroys (some "12345") ∧
    destroyCallCount .sigint (some "12345") ≤ 2 ∧
    (some "12345" = none → destroyCallCount .sigint (some "12345") = 0) ∧
    (ExitPath.sigint ≠ .normal → (some "12345").isSome = true →
      destroyCallCount .sigint (some "12345") = 2) :=
  cleanup_destroy_iff_serverId .sigint (some "12345")

/-! ## C4: the bounded SSH-reachability wait -/

theorem waitLoop_final_eq_iff (probe : Nat → Bool) :
    ∀ (r a : Nat),
      ((waitLoop probe r a).1 = r + a ↔ ∀ i, i < r → probe (a + i) = false) := by
  intro r
  induction r with
  | zero =>
    intro a
    constructor
    · intro _ i hi
      exact absurd hi (by omega)
    · intro _
      simp [waitLoop]
  | succ n ih =>
    intro a
    by_cases hp : probe a = true
    · simp only [waitLoop, if_pos hp]
      constructor
      · intro h
        exact absurd h (by omega)
      · intro hall
        have h0 := hall 0 (by omega)
        rw [Nat.add_zero] at h0
        rw [hp] at h0
        exact absurd h0 (by decide)
    · rw [Bool.not_eq_true] at hp
      simp only [waitLoop, if_neg (by simp [hp] : ¬ probe a = true)]
      constructor
      · intro h
        have h' : (waitLoop probe n (a + 1)).1 = n + (a + 1) := by omega
        intro i hi
        cases i with
        | zero => rw [Nat.add_zero]; exact hp
        | succ j =>
          have hj : a + (j + 1) = (a + 1) + j := by omega
          rw [hj]
          exact (ih (a + 1)).mp h' j (by omega)
      · intro hall
        have h0 : ∀ i, i < n → probe ((a + 1) + i) = false := by
          intro i hi
          have hj : (a + 1) + i = a + (i + 1) := by omega
          rw [hj]
          exact hall (i + 1) (by omega)
        have := (ih (a + 1)).mpr h0
        omega

theorem waitLoop_delays_5000 (probe : Nat → Bool) :
    ∀ (r a : Nat), (∀ x ∈ (waitLoop probe r a).2, x = 5000) ∧
      (waitLoop probe r a).2.length ≤ r := by
  intro r
  induction r with
  | zero =>
    intro a
    exact ⟨fun x hx => absurd hx (by simp [waitLoop]), by simp [waitLoop]⟩
  | succ n ih =>
    intro a
    by_cases hp : probe a = true
    · simp only [waitLoop, if_pos hp]
      exact ⟨fun x hx => absurd hx (by simp), by simp⟩
    · rw [Bool.not_eq_true] at hp
      simp only [waitLoop, if_neg (by simp [hp] : ¬ probe a = true)]
      refine ⟨fun x hx => ?_, ?_⟩
      · rcases List.mem_cons.mp hx with h | h
        · exact h
        · exact (ih (a + 1)).1 x h
      · simp only [List.length_cons]
        have := (ih (a + 1)).2
        omega

/--
C4.  The shell-reachability wait is bounded at 60 attempts with 5000 ms
spacing: it raises the `"Timeout waiting for SSH access"` error iff all 60
probes fail; if some probe among the first 60 succeeds it returns without
error; and every sleep it performs is exactly 5000 ms (at most 60 of them).
-/
theorem waitForServer_timeout_iff (probe : Nat → Bool) :
    (waitForServer probe = Except.error "Timeout waiting for SSH access" ↔
      ∀ i, i < 60 → probe i = false) ∧
    ((∃ i, i < 60 ∧ probe i = true) → ∃ d, waitForServer probe = Except.ok d) ∧
    (∀ d, waitForServer probe = Except.ok d →
      (∀ x ∈ d.2, x = 5000) ∧ d.2.length ≤ 60) := by
  have hiff := waitLoop_final_eq_iff probe 60 0
  simp only [Nat.add_zero, Nat.zero_add] at hiff
  refine ⟨?_, ?_, ?_⟩
  · unfold waitForServer
    by_cases h : (waitLoop probe 60 0).1 = 60
    · rw [if_pos h]
      exact ⟨fun _ => hiff.mp h, fun _ => rfl⟩
    · rw [if_neg h]
      constructor
      · intro habs
        exact absurd habs (by simp)
      · intro hall
        exact absurd (hiff.mpr hall) h
  · intro ⟨i, hi, hpi⟩
    unfold waitForServer
    have h : (waitLoop probe 60 0).1 ≠ 60 := by
      intro habs
      have := hiff.mp habs i hi
      rw [hpi] at this
      exact absurd this (by decide)
    rw [if_neg h]
    exact ⟨_, rfl⟩
  · intro d hd
    unfold waitForServer at hd
    by_cases h : (waitLoop probe 60 0).1 = 60
    · rw [if_pos h] at hd
      exact absurd hd (by simp)
    · rw [if_neg h] at hd
      have hd' : waitLoop probe 60 0 = d := by
        injection hd
      rw [← hd']
      exact ⟨(waitLoop_delays_5000 probe 60 0).1, (waitLoop_delays_5000 probe 60 0).2⟩

/-- C4, witness: the theorem at the never-succeeding probe (timeout) and at a
probe succeeding on attempt 3 (no error). -/
theorem waitForServer_timeout_iff_witness :
    waitForServer (fun _ => false) = Except.error "Timeout waiting for SSH access" ∧
    (∃ d, waitForServer (fun k => decide (k = 3)) = Except.ok d) :=
  ⟨(waitForServer_timeout_iff (fun _ => false)).1.mpr (fun _ _ => rfl),
   (waitForServer_timeout_iff (fun k => decide (k = 3))).2.1 ⟨3, by decide, by decide⟩⟩

/-! ## C5: order-deterministic artifact selection -/

theorem retrieveGo_eq_find (b : RemoteBuilder) (fe : String → Bool) (iso : String) :
    ∀ cands : List String,
      retrieveGo b fe iso cands =
        match cands.find? (fun c => fe (interpolateTemplate b c)) with
        | some c => .found (interpolateTemplate b c)
            ("build-" ++ timestamp iso ++ extnameS (interpolateTemplate b c))
        | none => .notFound := by
  intro cands
  induction cands with
  | nil => rfl
  | cons c rest ih =>
    cases hfe : fe (interpolateTemplate b c) with
    | true => simp [retrieveGo, List.find?, hfe]
    | false => simp [retrieveGo, List.find?, hfe, ih]

/--
C5.  The resolver walks the configured candidate list in order and selects the
first candidate whose interpolated remote path exists (its selection equals
`find?` on the list); `ArtifactNotFound` is raised iff no candidate exists;
and for candidates `[A, B]` that both exist remotely, `A` is always selected.
-/
theorem retrieveArtifact_order_deterministic (b : RemoteBuilder) (fe : String → Bool)
    (iso : String) :
    (retrieveArtifact b fe iso =
      match b.artifactCandidates.find? (fun c => fe (interpolateTemplate b c)) with
      | some c => .found (interpolateTemplate b c)
          ("build-" ++ timestamp iso ++ extnameS (interpolateTemplate b c))
      | none => .notFound) ∧
    (retrieveArtifact b fe iso = .notFound ↔
      ∀ c ∈ b.artifactCandidates, fe (interpolateTemplate b c) = false) ∧
    (∀ A B, b.artifactCandidates = [A, B] → fe (interpolateTemplate b A) = true →
      fe (interpolateTemplate b B) = true →
      retrieveArtifact b fe iso =
        .found (interpolateTemplate b A)
          ("build-" ++ timestamp iso ++ extnameS (interpolateTemplate b A))) := by
  refine ⟨retrieveGo_eq_find b fe iso b.artifactCandidates, ?_, ?_⟩
  · rw [retrieveArtifact, retrieveGo_eq_find]
    cases hf : b.artifactCandidates.find? (fun c => fe (interpolateTemplate b c)) with
    | none =>
      simp only [iff_true_intro rfl, true_iff]
      rw [List.find?_eq_none] at hf
      intro c hc
      have := hf c hc
      simpa using this
    | some c =>
      constructor
      · intro habs
        exact absurd habs (by simp)
      · intro hall
        have hmem := List.mem_of_find?_eq_some hf
        have hp := List.find?_some hf
        rw [hall c hmem] at hp
        exact absurd hp (by decide)
  · intro A B hAB hA _hB
    rw [retrieveArtifact, hAB, retrieveGo_eq_find]
    simp [List.find?, hA]

/-- C5, witness: the theorem at the default candidate list with both
candidates present remotely (the `.apk` wins) and at an empty remote file
system (`ArtifactNotFound`). -/
theorem retrieveArtifact_order_deterministic_witness :
    retrieveArtifact (defaultBuilder "preview") (fun _ => true)
        "2024-01-01T12:00:00.000Z" =
      .found "/root/build-output.apk" "build-2024-01-01-12-00-00-000.apk" ∧
    retrieveArtifact (defaultBuilder "preview") (fun _ => false)
        "2024-01-01T12:00:00.000Z" = .notFound :=
  ⟨((retrieveArtifact_order_deterministic (defaultBuilder "preview") (fun _ => true)
      "2024-01-01T12:00:00.000Z").2.2 "/root/build-output.apk" "/root/build-output.aab"
      rfl rfl rfl).trans (by decide),
   (retrieveArtifact_order_deterministic (defaultBuilder "preview") (fun _ => false)
      "2024-01-01T12:00:00.000Z").2.1.mpr (fun c _ => rfl)⟩

/-! ## C6: profile-keyed output-path resolution -/

/--
C6, counterexample.  An empty-string entry for the profile is an entry in
`artifactForProfile`, yet the `||` fallback in `runBuild` treats it as falsy
and resolves the default entry instead of the interpolation of the profile's
entry: with `{production: "", default: "/root/out.apk"}` and profile
`"production"` the resolved path is `"/root/out.apk"`, not
`interpolateTemplate ""` (which is `""`).
-/
theorem remoteOutputPath_empty_entry_counterexample :
    emptyEntryBuilder.artifactForProfile.lookup emptyEntryBuilder.profile = some "" ∧
    remoteOutputPath emptyEntryBuilder = some "/root/out.apk" ∧
    some "/root/out.apk" ≠ some (interpolateTemplate emptyEntryBuilder "") := by
  refine ⟨by decide, by decide, by decide⟩

/--
C6, amended.  The remote build output path is the interpolation of the
profile's entry when that entry exists and is non-empty, and the interpolation
of the (truthy) `default` entry otherwise; in particular profile
`"production"` with `{production: "/root/out-${PROFILE}.aab", default:
"/root/out.apk"}` resolves to `"/root/out-production.aab"` and profile
`"preview"` (no entry) falls back to `"/root/out.apk"`.
-/
theorem remoteOutputPath_resolution (b : RemoteBuilder) :
    remoteOutputPath (scenarioBuilder "production") = some "/root/out-production.aab" ∧
    remoteOutputPath (scenarioBuilder "preview") = some "/root/out.apk" ∧
    (∀ v, b.artifactForProfile.lookup b.profile = some v → v ≠ "" →
      remoteOutputPath b = some (interpolateTemplate b v)) ∧
    ((b.artifactForProfile.lookup b.profile = none ∨
      b.artifactForProfile.lookup b.profile = some "") →
      remoteOutputPath b =
        (truthyLookup b.artifactForProfile "default").map
          (fun t => interpolateTemplate b t)) := by
  refine ⟨by decide, by decide, ?_, ?_⟩
  · intro v hv hne
    simp [remoteOutputPath, outputTemplateFor, truthyLookup, hv, hne]
  · rintro (h | h) <;> simp [remoteOutputPath, outputTemplateFor, truthyLookup, h]

/-- C6, witness: the amended theorem's lookup cases at the two scenario
configurations. -/
theorem remoteOutputPath_resolution_witness :
    remoteOutputPath (scenarioBuilder "production") =
      some (interpolateTemplate (scenarioBuilder "production") "/root/out-${PROFILE}.aab") ∧
    remoteOutputPath (scenarioBuilder "preview") =
      (truthyLookup (scenarioBuilder "preview").artifactForProfile "default").map
        (fun t => interpolateTemplate (scenarioBuilder "preview") t) :=
  ⟨(remoteOutputPath_resolution (scenarioBuilder "production")).2.2.1
      "/root/out-${PROFILE}.aab" (by decide) (by decide),
   (remoteOutputPath_resolution (scenarioBuilder "preview")).2.2.2
      (Or.inl (by decide))⟩

/-! ## C7: the local artifact file name -/

theorem map_T_eq_id_of_not_mem {l : List Char} (h : 'T' ∉ l) :
    l.map (fun c => if c = 'T' then '-' else c) = l := by
  induction l with
  | nil => rfl
  | cons c rest ih =>
    simp only [List.mem_cons, not_or] at h
    have hcT : ¬ c = 'T' := fun hc => h.1 hc.symm
    simp only [List.map_cons, if_neg hcT, ih h.2]

theorem replaceFirst_T_eq_map :
    ∀ l : List Char, l.count 'T' ≤ 1 →
      replaceFirst ['T'] ['-'] l = l.map (fun c => if c = 'T' then '-' else c) := by
  intro l
  induction l with
  | nil => intro _; rfl
  | cons c rest ih =>
    intro h
    by_cases hc : c = 'T'
    · subst hc
      have hcount : rest.count 'T' = 0 := by
        rw [List.count_cons_self] at h
        omega
      have hmem : 'T' ∉ rest := List.count_eq_zero.mp hcount
      simp only [replaceFirst, List.map_cons, if_pos rfl]
      rw [if_pos ⟨by decide, by simp⟩]
      simp [map_T_eq_id_of_not_mem hmem]
    · have hcount : rest.count 'T' ≤ 1 := by
        rw [List.count_cons_of_ne (fun h' => hc h'.symm)] at h
        exact h
      have hneg : ¬(0 < (['T'] : List Char).length ∧
          (c :: rest).take (['T'] : List Char).length = ['T']) := by
        rintro ⟨-, htake⟩
        simp only [List.length_singleton, List.take_succ_cons, List.take_zero,
          List.cons.injEq] at htake
        exact hc htake.1
      simp only [replaceFirst, if_neg hneg, List.map_cons, if_neg hc, ih hcount]

theorem count_T_map_isoColonPeriod (l : List Char) :
    (l.map isoColonPeriod).count 'T' = l.count 'T' := by
  induction l with
  | nil => rfl
  | cons c rest ih =>
    simp only [List.map_cons]
    by_cases h : c = ':' ∨ c = '.'
    · have hc : isoColonPeriod c = '-' := by simp [isoColonPeriod, h]
      have hcT : ('T' : Char) ≠ c := by rcases h with rfl | rfl <;> decide
      rw [hc, List.count_cons_of_ne (by decide : ('T' : Char) ≠ '-'),
        List.count_cons_of_ne hcT, ih]
    · have hc : isoColonPeriod c = c := by simp [isoColonPeriod, h]
      rw [hc]
      by_cases hT : c = 'T'
      · subst hT
        rw [List.count_cons_self, List.count_cons_self, ih]
      · have h' : ('T' : Char) ≠ c := fun heq => hT heq.symm
        rw [List.count_cons_of_ne h', List.count_cons_of_ne h', ih]

theorem timestamp_eq_amended {iso : String} (h : iso.toList.count 'T' ≤ 1) :
    timestamp iso =
      (((iso.toList.map isoColonPeriod).map (fun c => if c = 'T' then '-' else c)).takeWhile
        (fun c => c ≠ 'Z')).asString := by
  unfold timestamp timestampL
  rw [replaceFirst_T_eq_map _ (by rw [count_T_map_isoColonPeriod]; exact h)]

/--
C7, counterexample.  The claim's prose transformation of the ISO timestamp
(every colon and period to a hyphen, trailing time-zone suffix stripped) omits
the `T` date-time separator, which the code also replaces with a hyphen; at
the claim's own instant the prose name `build-2024-01-01T12-00-00-000.apk`
differs from the name the code produces, `build-2024-01-01-12-00-00-000.apk`
(which is what the claim's concrete example states).
-/
theorem artifactName_prose_counterexample :
    specProseArtifactName "2024-01-01T12:00:00.000Z" ".apk" =
      "build-2024-01-01T12-00-00-000.apk" ∧
    retrieveArtifact (defaultBuilder "preview")
        (fun p => p == "/root/build-output.apk") "2024-01-01T12:00:00.000Z" =
      .found "/root/build-output.apk" "build-2024-01-01-12-00-00-000.apk" ∧
    specProseArtifactName "2024-01-01T12:00:00.000Z" ".apk" ≠
      "build-2024-01-01-12-00-00-000.apk" := by
  refine ⟨by decide, by decide, by decide⟩

/--
C7, amended.  The local artifact file name is `build-` followed by the ISO
timestamp with every colon and period replaced by a hyphen, the (single)
date-time separator `T` likewise replaced by a hyphen, and the trailing
time-zone suffix stripped, followed by the candidate's extension; in
particular the candidate `/root/build-output.apk` retrieved at
`2024-01-01T12:00:00.000Z` is stored as
`build-2024-01-01-12-00-00-000.apk`.
-/
theorem artifactName_amended (iso cand : String) (h : iso.toList.count 'T' ≤ 1) :
    "build-" ++ timestamp iso ++ extnameS cand =
      specAmendedArtifactName iso (extnameS cand) ∧
    retrieveArtifact (defaultBuilder "preview")
        (fun p => p == "/root/build-output.apk") "2024-01-01T12:00:00.000Z" =
      .found "/root/build-output.apk" "build-2024-01-01-12-00-00-000.apk" := by
  constructor
  · unfold specAmendedArtifactName
    rw [timestamp_eq_amended h]
  · decide

/-- C7, witness: the amended theorem at the claim's instant and candidate. -/
theorem artifactName_amended_witness :
    "build-" ++ timestamp "2024-01-01T12:00:00.000Z" ++ extnameS "/root/build-output.apk" =
      specAmendedArtifactName "2024-01-01T12:00:00.000Z"
        (extnameS "/root/build-output.apk") ∧
    retrieveArtifact (defaultBuilder "preview")
        (fun p => p == "/root/build-output.apk") "2024-01-01T12:00:00.000Z" =
      .found "/root/build-output.apk" "build-2024-01-01-12-00-00-000.apk" :=
  artifactName_amended "2024-01-01T12:00:00.000Z" "/root/build-output.apk" (by decide)

/-! ## C3: monitoring terminates with RemoteBuildCrashed -/

theorem candidateCheckCmds_all_missing (b : RemoteBuilder) (s : RemoteState) :
    ∀ cands : List String,
      (∀ c ∈ cands, pathExists s (interpolateTemplate b c) = false) →
      candidateCheckCmds b s cands =
        (cands.map (fun c => "test -f " ++ quoteShellArg (interpolateTemplate b c)),
          false) := by
  intro cands
  induction cands with
  | nil => intro _; rfl
  | cons c rest ih =>
    intro h
    have hc := h c (by simp)
    simp only [candidateCheckCmds, hc, List.map_cons]
    rw [ih (fun x hx => h x (List.mem_cons_of_mem _ hx))]
    simp

/--
C3.  In a remote state where the completion status file is absent, none of the
tracked build processes (`eas-cli build`, `npm install`, `gradlew`) is running,
and no interpolated artifact candidate exists, the monitoring loop terminates
on its very first iteration with the `"Remote build failed"` crash outcome
(for every positive iteration budget), and the last remote command of that
iteration is the `tail -100` dump of the remote build log.
-/
theorem monitorBuild_crashes (b : RemoteBuilder) (s : RemoteState)
    (hstatus : pathExists s b.remoteStatusFile = false)
    (heas : s.easBuildRunning = false) (hnpm : s.npmInstallRunning = false)
    (hgradle : s.gradlewRunning = false)
    (hcands : ∀ c ∈ b.artifactCandidates,
      pathExists s (interpolateTemplate b c) = false) :
    (∀ fuel, 1 ≤ fuel → monitorBuild b s fuel = some .crashed) ∧
    monitorTick b s =
      (["test -f " ++ quoteShellArg b.remoteStatusFile, pgrepCmd] ++
        b.artifactCandidates.map
          (fun c => "test -f " ++ quoteShellArg (interpolateTemplate b c)) ++
        ["tail -100 " ++ quoteShellArg b.remoteLogPath], some .crashed) ∧
    (monitorTick b s).1.getLast? =
      some ("tail -100 " ++ quoteShellArg b.remoteLogPath) := by
  have htick : monitorTick b s =
      (["test -f " ++ quoteShellArg b.remoteStatusFile, pgrepCmd] ++
        b.artifactCandidates.map
          (fun c => "test -f " ++ quoteShellArg (interpolateTemplate b c)) ++
        ["tail -100 " ++ quoteShellArg b.remoteLogPath], some .crashed) := by
    unfold monitorTick
    rw [candidateCheckCmds_all_missing b s _ hcands]
    simp [hstatus, heas, hnpm, hgradle]
  refine ⟨?_, htick, ?_⟩
  · intro fuel hf
    cases fuel with
    | zero => exact absurd hf (by omega)
    | succ n => simp [monitorBuild, htick]
  · rw [htick]
    exact List.getLast?_concat _

/-- C3, witness: the theorem at the default configuration against a remote
state with no files and no processes. -/
theorem monitorBuild_crashes_witness :
    monitorBuild (defaultBuilder "preview") ⟨[], false, false, false⟩ 1 =
      some .crashed :=
  (monitorBuild_crashes (defaultBuilder "preview") ⟨[], false, false, false⟩
    rfl rfl rfl rfl (by decide)).1 1 (by omega)

/-! ## C9: shell quoting round-trips through a reference evaluator -/

theorem isSafeChar_not_special {c : Char} (h : isSafeChar c = true) :
    isShellSpecial c = false ∧ c ≠ squote ∧ c ≠ '\\' := by
  simp only [isSafeChar, Bool.or_eq_true, Bool.and_eq_true, decide_eq_true_eq,
    beq_iff_eq] at h
  refine ⟨?_, ?_, ?_⟩
  · have hmem : ¬ c ∈ shellSpecialChars := by
      intro hmem
      simp only [shellSpecialChars, List.mem_cons, List.not_mem_nil, or_false] at hmem
      rcases hmem with rfl | rfl | rfl | rfl | rfl | rfl | rfl | rfl | rfl | rfl |
        rfl | rfl | rfl | rfl | rfl | rfl | rfl | rfl | rfl | rfl <;>
        (revert h; decide)
    simp only [isShellSpecial]
    simpa using hmem
  · rintro rfl; revert h; decide
  · rintro rfl; revert h; decide

theorem shellEval_out_squote (l : List Char) :
    shellEval .out (squote :: l) = shellEval .sq l := by
  rw [shellEval.eq_def]
  simp

theorem shellEval_out_backslash (d : Char) (l : List Char) (hd : ¬ d = '\n') :
    shellEval .out ('\\' :: d :: l) = (shellEval .out l).map (fun w => d :: w) := by
  rw [shellEval.eq_def]
  simp [if_neg hd, (by decide : ¬ ('\\' : Char) = squote)]

theorem shellEval_out_ord (c : Char) (l : List Char) (h1 : ¬ c = squote)
    (h2 : ¬ c = '\\') (h3 : isShellSpecial c = false) :
    shellEval .out (c :: l) = (shellEval .out l).map (fun w => c :: w) := by
  rw [shellEval.eq_def]
  simp [if_neg h1, if_neg h2, h3]

theorem shellEval_sq_squote (l : List Char) :
    shellEval .sq (squote :: l) = shellEval .out l := by
  rw [shellEval.eq_def]
  simp

theorem shellEval_sq_ord (c : Char) (l : List Char) (h : ¬ c = squote) :
    shellEval .sq (c :: l) = (shellEval .sq l).map (fun w => c :: w) := by
  rw [shellEval.eq_def]
  simp [if_neg h]

theorem shellEval_all_safe :
    ∀ s : List Char, s.all isSafeChar = true → shellEval .out s = some s := by
  intro s
  induction s with
  | nil => intro _; rfl
  | cons c rest ih =>
    intro h
    rw [List.all_cons, Bool.and_eq_true] at h
    obtain ⟨hspec, hsq, hbs⟩ := isSafeChar_not_special h.1
    rw [shellEval_out_ord c rest hsq hbs hspec, ih h.2]
    rfl

theorem squoteEscape_cons_ne {c : Char} (hc : c ≠ squote) (s : List Char) :
    squoteEscape (c :: s) = c :: squoteEscape s := by
  unfold squoteEscape
  rw [replaceAll_cons, if_neg]
  rintro ⟨-, htake⟩
  simp only [List.length_singleton, List.take_succ_cons, List.take_zero,
    List.cons.injEq] at htake
  exact hc htake.1

theorem squoteEscape_cons_squote (s : List Char) :
    squoteEscape (squote :: s) =
      squote :: '\\' :: squote :: squote :: squoteEscape s := by
  unfold squoteEscape
  rw [replaceAll_cons, if_pos ⟨by decide, by simp⟩]
  simp

theorem shellEval_sq_escape :
    ∀ s : List Char, shellEval .sq (squoteEscape s ++ [squote]) = some s := by
  intro s
  induction s with
  | nil => decide
  | cons c rest ih =>
    by_cases hc : c = squote
    · subst hc
      have h2 : ¬ squote = '\n' := by decide
      rw [squoteEscape_cons_squote]
      simp only [List.cons_append]
      rw [shellEval_sq_squote, shellEval_out_backslash _ _ h2, shellEval_out_squote, ih]
      rfl
    · rw [squoteEscape_cons_ne hc, List.cons_append, shellEval_sq_ord c _ hc, ih]
      rfl

/--
C9.  `quoteShellArg` produces a single shell word that the reference POSIX
word evaluator maps back to exactly the input: strings of the safe class
`[A-Za-z0-9_./=-]+` are passed through unchanged, and every other string is
wrapped in single quotes with each embedded single quote replaced by the
close-escape-reopen sequence.
-/
theorem quoteShellArg_round_trip (s : String) :
    shellEval .out (quoteShellArg s).toList = some s.toList ∧
    (s.toList ≠ [] ∧ s.toList.all isSafeChar = true → quoteShellArg s = s) ∧
    (¬(s.toList ≠ [] ∧ s.toList.all isSafeChar = true) →
      (quoteShellArg s).toList = squote :: (squoteEscape s.toList ++ [squote])) := by
  by_cases hcond : s.toList ≠ [] ∧ s.toList.all isSafeChar = true
  · have hq : quoteShellArgL s.toList = s.toList := by
      rw [quoteShellArgL, if_pos hcond]
    refine ⟨?_, fun _ => ?_, fun hn => absurd hcond hn⟩
    · show shellEval .out (quoteShellArgL s.toList) = some s.toList
      rw [hq]
      exact shellEval_all_safe _ hcond.2
    · show (quoteShellArgL s.toList).asString = s
      rw [hq]
      rfl
  · have hq : quoteShellArgL s.toList = squote :: (squoteEscape s.toList ++ [squote]) := by
      rw [quoteShellArgL, if_neg hcond]
    refine ⟨?_, fun h => absurd h hcond, fun _ => hq⟩
    show shellEval .out (quoteShellArgL s.toList) = some s.toList
    rw [hq, shellEval_out_squote]
    exact shellEval_sq_escape s.toList

/-- C9, witness: the theorem at the embedded-quote string `a'b` (wrapped) and
at the safe string `abc` (unchanged). -/
theorem quoteShellArg_round_trip_witness :
    shellEval .out (quoteShellArg "a\x27b").toList = some "a\x27b".toList ∧
    (quoteShellArg "a\x27b").toList =
      squote :: (squoteEscape "a\x27b".toList ++ [squote]) ∧
    quoteShellArg "abc" = "abc" :=
  ⟨(quoteShellArg_round_trip "a\x27b").1,
   (quoteShellArg_round_trip "a\x27b").2.2 (by decide),
   (quoteShellArg_round_trip "abc").2.1 (by decide)⟩

/-! ## C10: CLI argument parsing -/

theorem not_flag_of_no_dash {arg : String} (h : startsWithDash arg = false) :
    ¬(arg = "--help" ∨ arg = "-h") ∧ ¬(arg = "--profile" ∨ arg = "-p") ∧
    ¬(arg = "--env-folder" ∨ arg = "-e") := by
  refine ⟨?_, ?_, ?_⟩ <;> (rintro (rfl | rfl) <;> (revert h; decide))

theorem parseArgsGo_cons_positional (arg : String) (rest : List String)
    (profile envFolder : String) (h : startsWithDash arg = false) :
    parseArgsGo (arg :: rest) profile envFolder false =
      parseArgsGo rest arg envFolder true := by
  obtain ⟨h1, h2, h3⟩ := not_flag_of_no_dash h
  rw [parseArgsGo.eq_def]
  simp [if_neg h1, if_neg h2, if_neg h3, h]

theorem parseArgsGo_cons_skip (arg : String) (rest : List String)
    (profile envFolder : String) (h : startsWithDash arg = false) :
    parseArgsGo (arg :: rest) profile envFolder true =
      parseArgsGo rest profile envFolder true := by
  obtain ⟨h1, h2, h3⟩ := not_flag_of_no_dash h
  rw [parseArgsGo.eq_def]
  simp [if_neg h1, if_neg h2, if_neg h3]

theorem parseArgsGo_cons_profile_flag (arg v : String) (rest : List String)
    (profile envFolder : String) (u : Bool) (harg : arg = "--profile" ∨ arg = "-p")
    (hv : v ≠ "") (hvd : startsWithDash v = false) :
    parseArgsGo (arg :: v :: rest) profile envFolder u =
      parseArgsGo rest v envFolder true := by
  have h1 : ¬(arg = "--help" ∨ arg = "-h") := by
    rcases harg with rfl | rfl <;> decide
  rw [parseArgsGo.eq_def]
  simp [if_neg h1, if_pos harg, hv, hvd]

/--
C10.  With no arguments the CLI defaults to profile `"preview"` and env folder
`".env"`; a `--profile`/`-p` flag value determines the profile whether it
appears before or after a positional profile argument; and only the first
positional non-flag argument can set the profile — all later positionals are
ignored.
-/
theorem parseArgs_profile_rules :
    parseArgs [] = .ok "preview" ".env" ∧
    (∀ p v, startsWithDash p = false → v ≠ "" → startsWithDash v = false →
      parseArgs [p, "--profile", v] = .ok v ".env" ∧
      parseArgs ["--profile", v, p] = .ok v ".env" ∧
      parseArgs [p, "-p", v] = .ok v ".env" ∧
      parseArgs ["-p", v, p] = .ok v ".env") ∧
    (∀ p qs, startsWithDash p = false → (∀ q ∈ qs, startsWithDash q = false) →
      parseArgs (p :: qs) = .ok p ".env") := by
  have hskip : ∀ (qs : List String) (profile envFolder : String),
      (∀ q ∈ qs, startsWithDash q = false) →
      parseArgsGo qs profile envFolder true = .ok profile envFolder := by
    intro qs
    induction qs with
    | nil => intro _ _ _; rfl
    | cons q rest ih =>
      intro profile envFolder h
      rw [parseArgsGo_cons_skip q rest profile envFolder (h q (by simp))]
      exact ih profile envFolder (fun x hx => h x (List.mem_cons_of_mem _ hx))
  refine ⟨rfl, ?_, ?_⟩
  · intro p v hp hv hvd
    have hone : ∀ envFolder : String, ∀ q ∈ [p], startsWithDash q = false := by
      intro envFolder q hq
      rw [List.mem_singleton] at hq
      rw [hq]
      exact hp
    refine ⟨?_, ?_, ?_, ?_⟩
    · show parseArgsGo [p, "--profile", v] "preview" ".env" false = _
      rw [parseArgsGo_cons_positional p _ _ _ hp,
        parseArgsGo_cons_profile_flag "--profile" v [] p ".env" true (Or.inl rfl) hv hvd]
      rfl
    · show parseArgsGo ["--profile", v, p] "preview" ".env" false = _
      rw [parseArgsGo_cons_profile_flag "--profile" v [p] "preview" ".env" false
        (Or.inl rfl) hv hvd]
      exact hskip [p] v ".env" (hone ".env")
    · show parseArgsGo [p, "-p", v] "preview" ".env" false = _
      rw [parseArgsGo_cons_positional p _ _ _ hp,
        parseArgsGo_cons_profile_flag "-p" v [] p ".env" true (Or.inr rfl) hv hvd]
      rfl
    · show parseArgsGo ["-p", v, p] "preview" ".env" false = _
      rw [parseArgsGo_cons_profile_flag "-p" v [p] "preview" ".env" false
        (Or.inr rfl) hv hvd]
      exact hskip [p] v ".env" (hone ".env")
  · intro p qs hp hq
    show parseArgsGo (p :: qs) "preview" ".env" false = _
    rw [parseArgsGo_cons_positional p qs _ _ hp]
    exact hskip qs p ".env" hq

/-- C10, witness: flag after positional wins; second positional is ignored. -/
theorem parseArgs_profile_rules_witness :
    parseArgs ["production", "--profile", "development"] = .ok "development" ".env" ∧
    parseArgs ["alpha", "beta"] = .ok "alpha" ".env" :=
  ⟨(parseArgs_profile_rules.2.1 "production" "development" (by decide) (by decide)
      (by decide)).1,
   parseArgs_profile_rules.2.2 "alpha" ["beta"] (by decide)
      (fun q hq => by rw [List.mem_singleton] at hq; rw [hq]; decide)⟩

end Htzbuild
